import Mathlib

/-!
Verification of the customer-churn XGBoost pipeline notebook
(`Notebooks/SageMaker_Customer_Churn_XGB_Pipeline.ipynb`).

The notebook consists of two embedded Python scripts (`preprocess.py`,
`evaluate.py`) and a sequence of SageMaker SDK calls: pipeline assembly,
idempotent creation, a pipeline-execution poll loop, model approval, and
endpoint creation with a status-wait loop.  Each piece of Python logic is
shallowly embedded below as an executable Lean definition; the theorems at
the end of the file settle the specification claims against those
definitions.
-/

namespace ChurnPipeline

/-! ## String utilities

`pyIn needle hay` models the Python expression `needle in hay` on strings:
`needle` occurs as a contiguous substring of `hay`. -/

def pyIn (needle hay : String) : Bool :=
  hay.data.tails.any (fun t => needle.data.isPrefixOf t)

/-! ## Idempotent pipeline creation (notebook cell `Create Pipeline`)

```python
try:
    response = pipeline.create(role_arn=role)
except ClientError as e:
    error = e.response["Error"]
    if error["Code"] == "ValidationError" and \
       "Pipeline names must be unique within" in error["Message"]:
        print(error["Message"])
        response = pipeline.describe()
    else:
        raise
```

`pipeline.create` either succeeds with a response or raises a `ClientError`
carrying an error code and message; the handler turns exactly the
duplicate-name `ValidationError` into the result of `pipeline.describe()`
and re-raises everything else. -/

structure ClientError where
  Code : String
  Message : String
deriving DecidableEq

def duplicateNameText : String := "Pipeline names must be unique within"

def create_pipeline_handler {α : Type} (createResult : Except ClientError α)
    (describeResponse : α) : Except ClientError α :=
  match createResult with
  | .ok r => .ok r
  | .error e =>
    if e.Code = "ValidationError" && pyIn duplicateNameText e.Message then
      .ok describeResponse
    else
      .error e

/-! ## Model approval (notebook cells `Approve the model`)

```python
packages = sm_client.list_model_packages(...)['ModelPackageSummaryList']
packages = sorted(packages, key=lambda x: x['CreationTime'], reverse=True)
latest_model_package_arn = packages[0]['ModelPackageArn']
...
sm_client.update_model_package(
    ModelPackageArn=latest_model_package_arn, ModelApprovalStatus="Approved")
```

`packages[0]` on an empty list raises `IndexError`; the embedding returns
`none` in that case.  Python's `sorted(..., reverse=True)` is a stable sort
into descending key order, modelled by `List.insertionSort` with the
relation `b.CreationTime ≤ a.CreationTime`. -/

structure ModelPackage where
  ModelPackageArn : String
  CreationTime : Nat
  ModelApprovalStatus : String
deriving DecidableEq

def byCreationTimeDesc (a b : ModelPackage) : Prop :=
  b.CreationTime ≤ a.CreationTime

instance : DecidableRel byCreationTimeDesc :=
  fun a b => inferInstanceAs (Decidable (b.CreationTime ≤ a.CreationTime))

instance : IsTotal ModelPackage byCreationTimeDesc :=
  ⟨fun a b => Nat.le_total b.CreationTime a.CreationTime⟩

instance : IsTrans ModelPackage byCreationTimeDesc :=
  ⟨fun _ _ _ h1 h2 => Nat.le_trans h2 h1⟩

def sortedByCreationTimeDesc (ps : List ModelPackage) : List ModelPackage :=
  List.insertionSort byCreationTimeDesc ps

def latest_model_package_arn (ps : List ModelPackage) : Option String :=
  (sortedByCreationTimeDesc ps).head?.map (fun p => p.ModelPackageArn)

def update_model_package (ps : List ModelPackage) (arn : String)
    (status : String) : List ModelPackage :=
  ps.map (fun p =>
    if p.ModelPackageArn = arn then { p with ModelApprovalStatus := status }
    else p)

def approve_latest (ps : List ModelPackage) : Option (List ModelPackage) :=
  (latest_model_package_arn ps).map (fun arn => update_model_package ps arn "Approved")

/-! ## Pipeline-execution poll loop (notebook cell `Run Pipeline`)

```python
while True:
    resp = sm_client.describe_pipeline_execution(PipelineExecutionArn=...)
    if resp['PipelineExecutionStatus'] == 'Executing':
        print('Running...')
    else:
        print(resp['PipelineExecutionStatus'], pipeline_execution_arn)
        break
    time.sleep(15)
```

`statuses k` is the `PipelineExecutionStatus` returned by the `k`-th
`describe_pipeline_execution` call.  The Lean model adds explicit fuel
(the Python loop may run forever); `none` means the fuel ran out with the
loop still going.  On exit it returns the list of sleep durations performed
(the fixed 15-second interval, one per non-terminal observation) and the
status that ended the loop. -/

def pipeline_poll_loop (statuses : Nat → String) :
    Nat → Nat → List Nat → Option (List Nat × String)
  | 0, _, _ => none
  | fuel + 1, k, sleeps =>
    let st := statuses k
    if st = "Executing" then
      pipeline_poll_loop statuses fuel (k + 1) (sleeps ++ [15])
    else
      some (sleeps, st)

/-! ## Endpoint wait loop (`wait_for_response`, notebook cell `Create Endpoint`)

```python
def wait_for_response(client, endpoint_name, poll_interval=30):
    status = 'Creating'
    while(status == 'Creating'):
        response = client.describe_endpoint(EndpointName=endpoint_name)
        status = response['EndpointStatus']
        print('Creating job is still in status: {} ...'.format(status))
        if status == 'Failed':
            message = response['FailureReason']
            logging.info('Endpoint Creation failed with the following error: {}'.format(message))
            print('Endpoint failed with the following error: {}'.format(message))
            raise Exception('Creating Endpoint failed')
        logging.info("Creating job is still in status: " + status)
        time.sleep(poll_interval)

    if status == 'InService':
        ...
    else:
        raise Exception('Creating job stopped')
```

`responses k` is the result of the `k`-th `describe_endpoint` call, a
status plus the `FailureReason` field.  The model records every printed
line and every sleep duration; a raised exception is `.error msg` where
`msg` is the string passed to `Exception(...)`.  Note the `Failed` branch
raises before sleeping, while every other iteration (the final, terminal
one included) sleeps `poll_interval` before the `while` condition is
re-checked. -/

structure EndpointResponse where
  EndpointStatus : String
  FailureReason : String
deriving DecidableEq

def statusLine (st : String) : String :=
  "Creating job is still in status: " ++ st ++ " ..."

def failLine (reason : String) : String :=
  "Endpoint failed with the following error: " ++ reason

def wait_for_response (responses : Nat → EndpointResponse) (pollInterval : Nat) :
    Nat → Nat → List String → List Nat →
    Option (List String × List Nat × Except String Unit)
  | 0, _, _, _ => none
  | fuel + 1, k, prints, sleeps =>
    let r := responses k
    let st := r.EndpointStatus
    let prints := prints ++ [statusLine st]
    if st = "Failed" then
      some (prints ++ [failLine r.FailureReason], sleeps,
            .error "Creating Endpoint failed")
    else
      let sleeps := sleeps ++ [pollInterval]
      if st = "Creating" then
        wait_for_response responses pollInterval fuel (k + 1) prints sleeps
      else if st = "InService" then
        some (prints, sleeps, .ok ())
      else
        some (prints, sleeps, .error "Creating job stopped")

/-! ## JSON values

A small JSON model: numbers (exact rationals), strings, and objects with an
ordered field list.  This is the shape of the evaluation report written by
`evaluate.py` and read back by the pipeline's `JsonGet` condition. -/

inductive J where
  | num (q : Rat)
  | str (s : String)
  | obj (fields : List (String × J))

mutual

/-- Paths (lists of object keys) leading to the numeric scalar leaves of a
JSON value, in document order. -/
def scalarPaths : J → List (List String)
  | .num _ => [[]]
  | .str _ => []
  | .obj fields => scalarPathsFields fields

def scalarPathsFields : List (String × J) → List (List String)
  | [] => []
  | (k, v) :: rest => (scalarPaths v).map (fun p => k :: p) ++ scalarPathsFields rest

end

/-- Look up a (dot-separated, already split) key path in a JSON value, the
way SageMaker's `JsonGet` resolves `json_path` in a property file. -/
def jsonGet : List String → J → Option J
  | [], v => some v
  | k :: ks, .obj fields =>
    match (fields.find? (fun kv => kv.1 = k)).map (fun kv => kv.2) with
    | some v => jsonGet ks v
    | none => none
  | _ :: _, .num _ => none
  | _ :: _, .str _ => none

/-- Split a list of characters on a separator character (the grouping
underlying `"…".split(".")`). -/
def splitOnChar (sep : Char) : List Char → List (List Char)
  | [] => [[]]
  | c :: cs =>
    match splitOnChar sep cs with
    | [] => [[]]
    | g :: gs => if c = sep then [] :: g :: gs else (c :: g) :: gs

/-- The dot-separated segments of a JSON path string, e.g.
`"binary_classification_metrics.accuracy.value"` into its three keys. -/
def pathSegments (path : String) : List String :=
  (splitOnChar (Char.ofNat 46) path.data).map String.mk

def json_path_eval (report : J) (path : String) : Option J :=
  jsonGet (pathSegments path) report

/-! ## `evaluate.py`

```python
y_test = df.iloc[:, 0].to_numpy()
df.drop(df.columns[0], axis=1, inplace=True)
X_test = xgboost.DMatrix(df.values)
predictions = model.predict(X_test)
acc = accuracy_score(y_test, predictions.round())
auc = roc_auc_score(y_test, predictions.round())
report_dict = {
    "binary_classification_metrics": {
        "accuracy": {"value": acc, "standard_deviation": "NaN"},
        "auc": {"value": auc, "standard_deviation": "NaN"},
    },
}
```

Cells of the CSV read by the scripts; label cells are numeric. -/

inductive Cell where
  | str (s : String)
  | num (q : Rat)
deriving DecidableEq

def cellRat : Cell → Rat
  | .str _ => 0
  | .num q => q

/-- `numpy.round` on a scalar: round half to even. -/
def np_round (q : Rat) : Rat :=
  let f : Int := q.floor
  let r : Rat := q - (f : Rat)
  if r < 1 / 2 then (f : Rat)
  else if 1 / 2 < r then ((f + 1 : Int) : Rat)
  else if f % 2 = 0 then (f : Rat) else ((f + 1 : Int) : Rat)

/-- `sklearn.metrics.accuracy_score`: the fraction of positions where the
prediction equals the label. -/
def accuracy_score (y pred : List Rat) : Rat :=
  (((y.zip pred).countP (fun ab => ab.1 = ab.2) : Nat) : Rat) / (y.length : Rat)

/-- `sklearn.metrics.roc_auc_score` specialised to the binary 0/1 scores
produced by `predictions.round()`: the ROC curve has the single interior
point `(FPR, TPR)`, so the trapezoidal area is `(1 + TPR - FPR) / 2`. -/
def roc_auc_score (y pred : List Rat) : Rat :=
  let pairs := y.zip pred
  let npos := pairs.countP (fun ab => ab.1 = 1)
  let nneg := pairs.countP (fun ab => ¬ ab.1 = 1)
  let tp := pairs.countP (fun ab => ab.1 = 1 ∧ ab.2 = 1)
  let fp := pairs.countP (fun ab => ¬ ab.1 = 1 ∧ ab.2 = 1)
  let tpr : Rat := (tp : Rat) / (npos : Rat)
  let fpr : Rat := (fp : Rat) / (nneg : Rat)
  (1 + tpr - fpr) / 2

/-- The `report_dict` literal of `evaluate.py`. -/
def report_dict (acc auc : Rat) : J :=
  .obj [("binary_classification_metrics", .obj [
    ("accuracy", .obj [("value", .num acc), ("standard_deviation", .str "NaN")]),
    ("auc", .obj [("value", .num auc), ("standard_deviation", .str "NaN")])])]

/-- `evaluate.py` after the model and `test.csv` are loaded: `testRows` are
the rows of the header-less `test.csv`, `predict` is the loaded xgboost
model's `predict` on the feature matrix.  Column 0 is taken as `y_test`
and dropped from the features; the report is built from the accuracy and
AUC of the rounded predictions. -/
def evaluate_script (predict : List (List Cell) → List Rat)
    (testRows : List (List Cell)) : J :=
  let y_test := testRows.map (fun r => cellRat (r.headD (.num 0)))
  let X_test := testRows.map (fun r => r.tail)
  let predictions := predict X_test
  let acc := accuracy_score y_test (predictions.map np_round)
  let auc := roc_auc_score y_test (predictions.map np_round)
  report_dict acc auc

/-- `y_test` as read by `evaluate.py` from the header-less test CSV:
column 0. -/
def evaluate_y_test (testRows : List (List Cell)) : List Rat :=
  testRows.map (fun r => cellRat (r.headD (.num 0)))

/-- The feature rows as read by `evaluate.py`: the test CSV with column 0
dropped. -/
def evaluate_X_test (testRows : List (List Cell)) : List (List Cell) :=
  testRows.map (fun r => r.tail)

/-! ## The pipeline definition (notebook cell `Define Model Building Pipeline`)

The declarative structure that matters to the claims: step identity and
order, and the condition step's `JsonGet`/threshold and its two branches.
-/

inductive PipeStep where
  | processing (name : String) (code : String)
  | training (name : String)
  | registerModel (name : String) (modelPackageGroupName : String)
  | condition (name : String) (jsonPath : String) (threshold : Rat)
      (ifSteps : List PipeStep) (elseSteps : List PipeStep)

def step_process : PipeStep := .processing "CustomerChurnProcess" "preprocess.py"

def step_train : PipeStep := .training "CustomerChurnTrain"

def step_eval : PipeStep := .processing "CustomerChurnEval" "evaluate.py"

def step_register : PipeStep :=
  .registerModel "CustomerChurnRegisterModel" "CustomerChurnPackageGroup"

def accuracy_json_path : String := "binary_classification_metrics.accuracy.value"

/-- `ConditionStep(name="CustomerChurnAccuracyCond", conditions=[cond_lte],
if_steps=[step_register], else_steps=[])` with
`cond_lte = ConditionGreaterThanOrEqualTo(left=JsonGet(... accuracy ...), right=0.8)`. -/
def step_cond : PipeStep :=
  .condition "CustomerChurnAccuracyCond" accuracy_json_path (8 / 10)
    [step_register] []

/-- `steps=[step_process, step_train, step_eval, step_cond]` of the
`Pipeline(...)` constructor call. -/
def pipeline_steps : List PipeStep := [step_process, step_train, step_eval, step_cond]

/-- Semantics of `ConditionGreaterThanOrEqualTo(left=JsonGet(...), right=thr)`
against an evaluation report: `some true` / `some false` when the path
resolves to a number, `none` when it does not resolve (the condition step
would fail). -/
def cond_ge_holds (report : J) (path : String) (thr : Rat) : Option Bool :=
  match json_path_eval report path with
  | some (.num v) => some (decide (thr ≤ v))
  | _ => none

/-- The branch of a condition step that the platform executes given the
evaluation report (`none` for non-condition steps or an unresolvable
path). -/
def executed_branch (report : J) : PipeStep → Option (List PipeStep)
  | .condition _ path thr ifSteps elseSteps =>
    (cond_ge_holds report path thr).map (fun b => if b then ifSteps else elseSteps)
  | _ => none

/-! ## `preprocess.py`

```python
df = pd.read_csv(fn)
df = df.drop(["Phone"], axis=1)
df["Area Code"] = df["Area Code"].astype(object)
df = df.drop(["Day Charge", "Eve Charge", "Night Charge", "Intl Charge"], axis=1)
model_data = pd.get_dummies(df)
model_data = pd.concat(
    [model_data["Churn?_True."],
     model_data.drop(["Churn?_False.", "Churn?_True."], axis=1)], axis=1)
train_data, validation_data, test_data = np.split(
    model_data.sample(frac=1, random_state=1729),
    [int(0.7 * len(model_data)), int(0.9 * len(model_data))])
```

A dataframe is a list of named columns; `isObj` is the pandas object
(categorical) dtype flag that decides which columns `get_dummies`
one-hot encodes.  All columns of one frame hold one cell per row. -/

structure Col where
  name : String
  isObj : Bool
  data : List Cell
deriving DecidableEq

abbrev Frame := List Col

def colNames (df : Frame) : List String := df.map (fun c => c.name)

/-- `df[nm]`: the (first) column named `nm`, `none` on a pandas `KeyError`. -/
def getCol (df : Frame) (nm : String) : Option Col :=
  df.find? (fun c => c.name = nm)

/-- `df.drop(names, axis=1)`: remove the columns with the given names. -/
def dropCols (names : List String) (df : Frame) : Frame :=
  df.filter (fun c => !(names.contains c.name))

/-- `df["Area Code"] = df["Area Code"].astype(object)`: flip the dtype flag
of one column. -/
def astypeObject (nm : String) (df : Frame) : Frame :=
  df.map (fun c => if c.name = nm then { c with isObj := true } else c)

/-- The string a cell contributes to a categorical column's levels. -/
def cellStr : Cell → String
  | .str s => s
  | .num q => toString q

/-- Lexicographic comparison of character lists by code point, the order
Python uses on strings. -/
def charsLe : List Char → List Char → Bool
  | [], _ => true
  | _ :: _, [] => false
  | x :: xs, y :: ys => if x < y then true else if y < x then false else charsLe xs ys

def strLe (a b : String) : Bool := charsLe a.data b.data

/-- First-occurrence deduplication (`pandas` `unique`). -/
def dedupAux (seen : List String) : List String → List String
  | [] => []
  | x :: xs =>
    if seen.contains x then dedupAux seen xs
    else x :: dedupAux (x :: seen) xs

def dedupFirst (l : List String) : List String := dedupAux [] l

/-- The levels of a categorical column as `pd.get_dummies` uses them: the
distinct values in sorted order. -/
def sortedLevels (xs : List String) : List String :=
  List.insertionSort (fun a b => strLe a b = true) (dedupFirst xs)

/-- The indicator column `get_dummies` creates for one level `v` of a
categorical column `c`: named `c.name + "_" + v`, numeric, cell `1` where
the value equals `v` and `0` elsewhere. -/
def dummyCol (c : Col) (v : String) : Col :=
  { name := c.name ++ "_" ++ v
    isObj := false
    data := c.data.map (fun x => if cellStr x = v then .num 1 else .num 0) }

def dummyCols (c : Col) : List Col := (sortedLevels (c.data.map cellStr)).map (dummyCol c)

/-- `pd.get_dummies(df)`: the non-object columns in order, followed by the
indicator columns of each object column in order. -/
def get_dummies (df : Frame) : Frame :=
  df.filter (fun c => !c.isObj) ++ (df.filter (fun c => c.isObj)).flatMap dummyCols

/-- `pd.concat([md["Churn?_True."], md.drop(["Churn?_False.", "Churn?_True."], axis=1)], axis=1)`:
move the positive-churn indicator to the front, dropping also the
negative-churn indicator.  `none` models the `KeyError` raised when the
column is missing. -/
def churnRelabel (md : Frame) : Option Frame :=
  (getCol md "Churn?_True.").map
    (fun ct => ct :: dropCols ["Churn?_False.", "Churn?_True."] md)

/-- The first three steps of the recipe: drop `Phone`, cast `Area Code` to
object, drop the four charge columns. -/
def preprocessDropCast (df : Frame) : Frame :=
  dropCols ["Day Charge", "Eve Charge", "Night Charge", "Intl Charge"]
    (astypeObject "Area Code" (dropCols ["Phone"] df))

/-- The column recipe of `preprocess.py`: drop `Phone`, cast `Area Code` to
object, drop the four charge columns, one-hot encode, move the churn label
to the front. -/
def preprocess_model_data (df : Frame) : Option Frame :=
  churnRelabel (get_dummies (preprocessDropCast df))

/-- The five column names dropped by the recipe (in drop order). -/
def droppedColumns : List String :=
  ["Phone", "Day Charge", "Eve Charge", "Night Charge", "Intl Charge"]

/-- Number of rows of a frame (the length of its first column). -/
def nrows : Frame → Nat
  | [] => 0
  | c :: _ => c.data.length

/-- The rows of a frame, each row listing the cells in column order — the
lines `to_csv(header=False, index=False)` writes and `read_csv(header=None)`
reads back. -/
def rowsOf (df : Frame) : List (List Cell) :=
  (List.range (nrows df)).map (fun i => df.map (fun c => c.data.getD i (.num 0)))

/-- `int(0.7 * n)` of `preprocess.py`, in exact arithmetic. -/
def int07 (n : Nat) : Nat := 7 * n / 10

/-- `int(0.9 * n)` of `preprocess.py`, in exact arithmetic. -/
def int09 (n : Nat) : Nat := 9 * n / 10

/-- `np.split(arr, [i, j])`: the slices `arr[:i]`, `arr[i:j]`, `arr[j:]`. -/
def np_split2 {α : Type} (xs : List α) (i j : Nat) : List α × List α × List α :=
  (xs.take i, (xs.take j).drop i, xs.drop j)

/-- `preprocess.py` from `model_data` on: shuffle the rows
(`sample(frac=1, random_state=1729)`, modelled as an opaque `shuffle`
function — the seeded shuffle returns some permutation of the rows) and
split at `int(0.7 * len(model_data))` and `int(0.9 * len(model_data))`
into the train/validation/test row lists written as header-less CSVs. -/
def preprocess_script (shuffle : List (List Cell) → List (List Cell))
    (df : Frame) :
    Option (List (List Cell) × List (List Cell) × List (List Cell)) :=
  (preprocess_model_data df).map (fun md =>
    let rows := rowsOf md
    np_split2 (shuffle rows) (int07 rows.length) (int09 rows.length))

/-- The input frame has the object-dtype `Churn?` column with both the
`True.` and `False.` levels (so the dummy columns the relabelling step
indexes exist). -/
def churn_input_ok (df : Frame) : Bool :=
  match getCol df "Churn?" with
  | some c =>
    c.isObj && (c.data.map cellStr).contains "True."
      && (c.data.map cellStr).contains "False."
  | none => false

/-- No column other than `Churn?` is named, or generates a dummy column
named, `Churn?_True.` or `Churn?_False.` — the raw churn schema satisfies
this trivially. -/
def no_churn_clash (df : Frame) : Bool :=
  df.all (fun c =>
    c.name = "Churn?" ||
    (!(c.name = "Churn?_True.") && !(c.name = "Churn?_False.") &&
     (!(c.isObj || c.name = "Area Code") ||
      (sortedLevels (c.data.map cellStr)).all (fun v =>
        !(c.name ++ "_" ++ v = "Churn?_True.")
          && !(c.name ++ "_" ++ v = "Churn?_False.")))))

/-- The conclusion of claim C5: the recipe drops exactly the five fixed
columns, keeps every other non-categorical column unchanged, replaces every
categorical column (including `Area Code` after its cast) by its one-hot
indicator columns, and hands `np.split` the shuffled rows with boundaries
`int(0.7*n)` and `int(0.9*n)`. -/
def preprocessRecipeSpec (df : Frame)
    (shuffle : List (List Cell) → List (List Cell)) : Prop :=
  ∃ md, preprocess_model_data df = some md ∧
    (∀ nm ∈ droppedColumns, nm ∉ colNames md) ∧
    (∀ c ∈ df, c.isObj = false → c.name ≠ "Area Code" →
      c.name ∉ droppedColumns → c ∈ md) ∧
    (∀ c ∈ df, (c.isObj = true ∨ c.name = "Area Code") →
      c.name ∉ droppedColumns →
      ∀ v ∈ sortedLevels (c.data.map cellStr),
        c.name ++ "_" ++ v ≠ "Churn?_False." → dummyCol c v ∈ md) ∧
    preprocess_script shuffle df =
      some (np_split2 (shuffle (rowsOf md)) (int07 (rowsOf md).length)
        (int09 (rowsOf md).length))

/-- The conclusion of claim C9: the first column of the written frame is
the `Churn?_True.` indicator (with `Churn?_False.` dropped), so the head
cell of every row of every header-less CSV is the binary churn label, and
`evaluate.py` consumes exactly that head cell as `y_test` (dropping it from
the features). -/
def labelColumnSpec (df : Frame)
    (shuffle : List (List Cell) → List (List Cell)) : Prop :=
  ∃ md churn, getCol df "Churn?" = some churn ∧
    preprocess_model_data df = some md ∧
    (colNames md).head? = some "Churn?_True." ∧
    "Churn?_False." ∉ colNames md ∧
    md.head? = some (dummyCol churn "True.") ∧
    (rowsOf md).map (fun r => r.headD (.num 0)) = (dummyCol churn "True.").data ∧
    (∀ rows, evaluate_y_test rows
        = rows.map (fun r => cellRat (r.headD (.num 0))) ∧
      evaluate_X_test rows = rows.map (fun r => r.tail)) ∧
    ∀ t v s, preprocess_script shuffle df = some (t, v, s) →
      ((t ++ v ++ s).map (fun r => r.headD (.num 0))).Perm
        (dummyCol churn "True.").data

/-! ## Concrete sample inputs

Small closed instances used to exercise the theorems below on computable
data. -/

/-- A duplicate-name `ClientError` as the service reports it. -/
def sampleDuplicateError : ClientError :=
  { Code := "ValidationError"
    Message := "Pipeline names must be unique within an AWS account and region" }

/-- An unrelated `ClientError`. -/
def sampleOtherError : ClientError :=
  { Code := "AccessDeniedException", Message := "not authorized" }

/-- A response stream whose first describe call reports `Creating` and whose
second reports `Failed`. -/
def sampleFailResponses : Nat → EndpointResponse := fun n =>
  if n = 0 then { EndpointStatus := "Creating", FailureReason := "warming" }
  else { EndpointStatus := "Failed", FailureReason := "CapacityError" }

/-- A response stream that reports `Failed` immediately. -/
def immediateFailResponses : Nat → EndpointResponse := fun _ =>
  { EndpointStatus := "Failed", FailureReason := "ResourceLimitExceeded" }

/-- A pipeline-execution status stream: `Executing` twice, then `Succeeded`. -/
def sampleStatuses : Nat → String := fun n =>
  if n < 2 then "Executing" else "Succeeded"

/-- An endpoint status stream: `Creating` once, then `InService`. -/
def sampleCreatingResponses : Nat → EndpointResponse := fun n =>
  if n = 0 then { EndpointStatus := "Creating", FailureReason := "" }
  else { EndpointStatus := "InService", FailureReason := "" }

/-- Two registered model packages with distinct creation times. -/
def samplePackages : List ModelPackage :=
  [ { ModelPackageArn := "arn-a", CreationTime := 5,
      ModelApprovalStatus := "PendingManualApproval" },
    { ModelPackageArn := "arn-b", CreationTime := 9,
      ModelApprovalStatus := "PendingManualApproval" } ]

/-- A miniature churn dataframe with the schema features the recipe
touches. -/
def sampleDf : Frame :=
  [ { name := "State", isObj := true, data := [.str "KS", .str "OH", .str "NJ"] },
    { name := "Phone", isObj := false, data := [.num 1, .num 2, .num 3] },
    { name := "Day Charge", isObj := false, data := [.num 10, .num 20, .num 30] },
    { name := "Day Mins", isObj := false, data := [.num 5, .num 6, .num 7] },
    { name := "Area Code", isObj := false, data := [.str "408", .str "415", .str "408"] },
    { name := "Churn?", isObj := true, data := [.str "True.", .str "False.", .str "False."] } ]

/-- Five one-cell rows. -/
def sampleRows : List (List Cell) :=
  [[.num 1], [.num 2], [.num 3], [.num 4], [.num 5]]

/-- The same five rows, shuffled. -/
def sampleShuffled : List (List Cell) :=
  [[.num 5], [.num 4], [.num 3], [.num 2], [.num 1]]

/-! ## Helper lemmas -/

/-- Membership in `dedupAux`: an element of the output is an element of the
input not filtered by `seen`. -/
theorem mem_dedupAux (a : String) (l : List String) :
    ∀ seen, a ∈ dedupAux seen l ↔ (a ∈ l ∧ a ∉ seen) := by
  induction l with
  | nil => intro seen; simp [dedupAux]
  | cons x xs ih =>
    intro seen
    by_cases hx : seen.contains x = true
    · have hxs : x ∈ seen := by
        simpa [List.contains, List.elem_iff] using hx
      rw [dedupAux, if_pos hx, ih seen]
      constructor
      · rintro ⟨ha, hs⟩; exact ⟨List.mem_cons_of_mem _ ha, hs⟩
      · rintro ⟨ha, hs⟩
        rcases List.mem_cons.mp ha with rfl | ha2
        · exact absurd hxs hs
        · exact ⟨ha2, hs⟩
    · have hxs : x ∉ seen := by
        simpa [List.contains, List.elem_iff] using hx
      rw [dedupAux, if_neg hx]
      simp only [List.mem_cons, ih (x :: seen), List.mem_cons]
      constructor
      · rintro (rfl | ⟨ha, hs⟩)
        · exact ⟨Or.inl rfl, hxs⟩
        · exact ⟨Or.inr ha, fun hin => hs (Or.inr hin)⟩
      · rintro ⟨rfl | ha, hs⟩
        · exact Or.inl rfl
        · by_cases hax : a = x
          · exact Or.inl hax
          · exact Or.inr ⟨ha, fun hin => hs (by
              rcases hin with h1 | h1
              · exact absurd h1 hax
              · exact h1)⟩

theorem mem_dedupFirst {a : String} {l : List String} :
    a ∈ dedupFirst l ↔ a ∈ l := by
  simpa [dedupFirst] using mem_dedupAux a l []

theorem mem_sortedLevels {a : String} {xs : List String} :
    a ∈ sortedLevels xs ↔ a ∈ xs := by
  rw [sortedLevels, List.mem_insertionSort, mem_dedupFirst]

/-- Reading a list back off by indexing each position. -/
theorem map_getD_range {α : Type} (xs : List α) (d : α) :
    (List.range xs.length).map (fun i => xs.getD i d) = xs := by
  induction xs with
  | nil => simp
  | cons x xs ih =>
    rw [List.length_cons, List.range_succ_eq_map, List.map_cons, List.map_map]
    have hcomp :
        ((fun i => (x :: xs).getD i d) ∘ Nat.succ) = fun i => xs.getD i d := by
      funext i
      simp [Function.comp, List.getD_cons_succ]
    rw [hcomp, List.getD_cons_zero, ih]

/-- Every dummy-column name contains an underscore. -/
theorem underscore_mem_dummy_name (s v : String) : '_' ∈ (s ++ "_" ++ v).data := by
  rw [String.data_append, String.data_append]
  exact List.mem_append_left _ (List.mem_append_right _ (by decide))

/-- A string without an underscore is never a dummy-column name. -/
theorem dummy_name_ne_of_no_underscore {t : String} (ht : '_' ∉ t.data)
    (s v : String) : s ++ "_" ++ v ≠ t := by
  intro h
  exact ht (h ▸ underscore_mem_dummy_name s v)

/-- Cancellation of a common prefix ending in an underscore. -/
theorem append_underscore_inj {s v w : String}
    (h : s ++ "_" ++ v = s ++ "_" ++ w) : v = w := by
  have hd : ((s ++ "_") ++ v).data = ((s ++ "_") ++ w).data := by rw [h]
  rw [String.data_append, String.data_append] at hd
  exact String.ext (List.append_cancel_left hd)

/-- If the column names of a frame are distinct, columns are determined by
their names. -/
theorem nodup_names_inj {df : Frame} (h : (colNames df).Nodup) :
    ∀ a ∈ df, ∀ b ∈ df, a.name = b.name → a = b := by
  induction df with
  | nil => simp
  | cons c rest ih =>
    simp only [colNames, List.map_cons, List.nodup_cons] at h
    obtain ⟨hc, hrest⟩ := h
    intro a ha b hb heq
    rcases List.mem_cons.mp ha with rfl | ha2 <;>
      rcases List.mem_cons.mp hb with rfl | hb2
    · rfl
    · exact absurd (heq ▸ List.mem_map_of_mem (fun c => c.name) hb2) hc
    · exact absurd (heq ▸ List.mem_map_of_mem (fun c => c.name) ha2) hc
    · exact ih hrest a ha2 b hb2 heq

/-- `find?` over a `flatMap` where only one generator can produce a hit. -/
theorem find?_flatMap_of_unique {α β : Type} (p : β → Bool) (f : α → List β)
    {l : List α} {c : α} (hc : c ∈ l)
    (hothers : ∀ b ∈ l, b ≠ c → (f b).find? p = none) :
    (l.flatMap f).find? p = (f c).find? p := by
  induction l with
  | nil => cases hc
  | cons x xs ih =>
    rw [List.flatMap_cons, List.find?_append]
    by_cases hxc : x = c
    · subst hxc
      cases hfc : (f x).find? p with
      | some r => rfl
      | none =>
        rw [Option.none_or]
        rw [List.find?_eq_none]
        intro y hy
        obtain ⟨b, hb, hyb⟩ := List.mem_flatMap.mp hy
        by_cases hbc : b = x
        · subst hbc
          exact List.find?_eq_none.mp hfc y hyb
        · exact List.find?_eq_none.mp
            (hothers b (List.mem_cons_of_mem _ hb) hbc) y hyb
    · rw [hothers x (List.mem_cons_self _ _) hxc, Option.none_or]
      rcases List.mem_cons.mp hc with rfl | hc2
      · exact absurd rfl hxc
      · exact ih hc2 (fun b hb hbc => hothers b (List.mem_cons_of_mem _ hb) hbc)

/-- `find?` for equality with a member finds that member. -/
theorem find?_eq_self_of_mem {a : String} {l : List String} (h : a ∈ l) :
    l.find? (fun x => x = a) = some a := by
  induction l with
  | nil => cases h
  | cons x xs ih =>
    by_cases hxa : x = a
    · subst hxa
      simp [List.find?_cons_of_pos]
    · rw [List.find?_cons_of_neg _ (by simp [hxa])]
      rcases List.mem_cons.mp h with rfl | h2
      · exact absurd rfl hxa
      · exact ih h2

/-- The two split boundaries are ordered. -/
theorem int07_le_int09 (n : Nat) : int07 n ≤ int09 n :=
  Nat.div_le_div_right (by omega)

/-- The upper split boundary is at most the row count. -/
theorem int09_le_self (n : Nat) : int09 n ≤ n := by
  have h : 9 * n / 10 ≤ 10 * n / 10 := Nat.div_le_div_right (by omega)
  rwa [Nat.mul_div_cancel_left n (by norm_num)] at h

/-- The three `np.split` slices concatenate back to the input when the
boundaries are ordered. -/
theorem np_split2_append_eq {α : Type} (xs : List α) (i j : Nat) (hij : i ≤ j) :
    (np_split2 xs i j).1 ++ (np_split2 xs i j).2.1 ++ (np_split2 xs i j).2.2
      = xs := by
  show xs.take i ++ (xs.take j).drop i ++ xs.drop j = xs
  have htt : xs.take i = (xs.take j).take i := by
    rw [List.take_take, Nat.min_eq_left hij]
  rw [htt, List.take_append_drop, List.take_append_drop]

/-- Membership in a `dropCols` result. -/
theorem mem_dropCols_iff {names : List String} {df : Frame} {c : Col} :
    c ∈ dropCols names df ↔ c ∈ df ∧ c.name ∉ names := by
  simp [dropCols, List.mem_filter, List.contains, List.elem_iff]

/-- The `astype` step preserves column names. -/
theorem astype_name (c : Col) (nm : String) :
    (if c.name = nm then { c with isObj := true } else c).name = c.name := by
  split <;> rfl

/-- The `astype` step preserves column data. -/
theorem astype_data (c : Col) (nm : String) :
    (if c.name = nm then { c with isObj := true } else c).data = c.data := by
  split <;> rfl

/-- A column of `astypeObject nm df` comes from a column of `df`. -/
theorem of_mem_astype {nm : String} {df : Frame} {c2 : Col}
    (h : c2 ∈ astypeObject nm df) :
    ∃ c ∈ df, c2 = if c.name = nm then { c with isObj := true } else c := by
  rw [astypeObject] at h
  obtain ⟨c, hc, heq⟩ := List.mem_map.mp h
  exact ⟨c, hc, heq.symm⟩

/-- Columns of `df` appear in `astypeObject nm df` with the flag update. -/
theorem mem_astype (nm : String) {df : Frame} {c : Col} (hc : c ∈ df) :
    (if c.name = nm then { c with isObj := true } else c) ∈ astypeObject nm df :=
  List.mem_map_of_mem _ hc

/-- `dummyCol` only reads the name and data, which `astype` preserves. -/
theorem dummyCol_astype (c : Col) (nm v : String) :
    dummyCol (if c.name = nm then { c with isObj := true } else c) v
      = dummyCol c v := by
  split <;> rfl

/-- The head cells of the rows of a frame are exactly its first column. -/
theorem rowsOf_head_map (c : Col) (rest : Frame) :
    (rowsOf (c :: rest)).map (fun r => r.headD (.num 0)) = c.data := by
  show ((List.range c.data.length).map
      (fun i => (c :: rest).map (fun col => col.data.getD i (.num 0)))).map
      (fun r => r.headD (.num 0)) = c.data
  rw [List.map_map]
  have hcomp : ((fun r : List Cell => r.headD (.num 0))
      ∘ fun i => (c :: rest).map (fun col => col.data.getD i (.num 0)))
      = fun i => c.data.getD i (.num 0) := by
    funext i
    simp
  rw [hcomp]
  exact map_getD_range c.data _

/-- Unpacking of `no_churn_clash` for one column whose name is not
`Churn?`. -/
theorem clash_facts {df : Frame} (hclash : no_churn_clash df = true)
    {c : Col} (hc : c ∈ df) (hcn : c.name ≠ "Churn?") :
    c.name ≠ "Churn?_True." ∧ c.name ≠ "Churn?_False."
    ∧ ((c.isObj = true ∨ c.name = "Area Code") →
        ∀ v ∈ sortedLevels (c.data.map cellStr),
          c.name ++ "_" ++ v ≠ "Churn?_True."
          ∧ c.name ++ "_" ++ v ≠ "Churn?_False.") := by
  have hcl := List.all_eq_true.mp hclash c hc
  simp only [Bool.or_eq_true, Bool.and_eq_true, Bool.not_eq_true',
    Bool.or_eq_false_iff, decide_eq_true_eq, decide_eq_false_iff_not,
    List.all_eq_true] at hcl
  rcases hcl with hcl | ⟨⟨h1, h2⟩, h3⟩
  · exact absurd hcl hcn
  · refine ⟨h1, h2, fun hobj v hv => ?_⟩
    rcases h3 with ⟨hio, hac⟩ | h3
    · rcases hobj with hobj | hobj
      · rw [hobj] at hio; cases hio
      · exact absurd hobj hac
    · exact h3 v hv

/-- Backtracking: every column of the dropped-and-cast frame comes from a
column of `df` with the same name and data whose name survived both
drops. -/
theorem trace_dropcast {df : Frame} {x : Col} (hx : x ∈ preprocessDropCast df) :
    ∃ c0 ∈ df, x.name = c0.name ∧ x.data = c0.data
      ∧ x = (if c0.name = "Area Code" then { c0 with isObj := true } else c0)
      ∧ c0.name ≠ "Phone"
      ∧ c0.name ∉ (["Day Charge", "Eve Charge", "Night Charge",
          "Intl Charge"] : List String) := by
  rw [preprocessDropCast] at hx
  obtain ⟨hx2, hxD4⟩ := mem_dropCols_iff.mp hx
  obtain ⟨c0, hc0, hxc0⟩ := of_mem_astype hx2
  obtain ⟨hc0df, hc0ph⟩ := mem_dropCols_iff.mp hc0
  have hn : x.name = c0.name := by rw [hxc0]; exact astype_name c0 _
  refine ⟨c0, hc0df, hn, by rw [hxc0]; exact astype_data c0 _, hxc0, ?_, ?_⟩
  · simpa using hc0ph
  · rwa [hn] at hxD4

/-- Forward direction: a column of `df` whose name survives both drops is in
the dropped-and-cast frame (with the `Area Code` flag update). -/
theorem mem_dropcast {df : Frame} {c : Col} (hc : c ∈ df)
    (hph : c.name ≠ "Phone")
    (hD4 : c.name ∉ (["Day Charge", "Eve Charge", "Night Charge",
        "Intl Charge"] : List String)) :
    (if c.name = "Area Code" then { c with isObj := true } else c)
      ∈ preprocessDropCast df := by
  rw [preprocessDropCast]
  apply mem_dropCols_iff.mpr
  refine ⟨?_, by rwa [astype_name]⟩
  exact mem_astype "Area Code" (mem_dropCols_iff.mpr ⟨hc, by simpa using hph⟩)

/-- Shape of the column names of the dummied frame: either the name of a
surviving original column, or a dummy name of the form `s + "_" + v`. -/
theorem mem_get_dummies_shape {df : Frame} {c : Col}
    (hc : c ∈ get_dummies (preprocessDropCast df)) :
    (∃ c0 ∈ df, c.name = c0.name ∧ c0.name ≠ "Phone"
      ∧ c0.name ∉ (["Day Charge", "Eve Charge", "Night Charge",
          "Intl Charge"] : List String))
    ∨ ∃ s v, c.name = s ++ "_" ++ v := by
  rw [get_dummies] at hc
  rcases List.mem_append.mp hc with hc1 | hc1
  · left
    obtain ⟨hc2, _⟩ := List.mem_filter.mp hc1
    obtain ⟨c0, hc0df, hcname, _, _, hph, hD4⟩ := trace_dropcast hc2
    exact ⟨c0, hc0df, hcname, hph, hD4⟩
  · right
    obtain ⟨b, _, hcb⟩ := List.mem_flatMap.mp hc1
    rw [dummyCols] at hcb
    obtain ⟨v, _, rfl⟩ := List.mem_map.mp hcb
    exact ⟨b.name, v, rfl⟩

/-- The main structural fact about `preprocess.py`'s column recipe: under
the churn-schema hypotheses the relabelling step finds the `Churn?_True.`
indicator of the `Churn?` column, and `model_data` is that indicator column
followed by the remaining dummied frame. -/
theorem preprocess_structure (df : Frame)
    (hnodup : (colNames df).Nodup)
    (hchurn : churn_input_ok df = true)
    (hclash : no_churn_clash df = true) :
    ∃ churn, getCol df "Churn?" = some churn ∧ churn ∈ df
      ∧ churn.name = "Churn?" ∧ churn.isObj = true
      ∧ "True." ∈ churn.data.map cellStr ∧ "False." ∈ churn.data.map cellStr
      ∧ preprocess_model_data df
        = some (dummyCol churn "True."
            :: dropCols ["Churn?_False.", "Churn?_True."]
                 (get_dummies (preprocessDropCast df))) := by
  cases hget : getCol df "Churn?" with
  | none => rw [churn_input_ok, hget] at hchurn; cases hchurn
  | some churn =>
  rw [churn_input_ok, hget] at hchurn
  simp only [Bool.and_eq_true] at hchurn
  obtain ⟨⟨hobj, htrue⟩, hfalse⟩ := hchurn
  have htrue' : "True." ∈ churn.data.map cellStr := by
    simpa [List.contains, List.elem_iff] using htrue
  have hfalse' : "False." ∈ churn.data.map cellStr := by
    simpa [List.contains, List.elem_iff] using hfalse
  have hmem : churn ∈ df := List.mem_of_find?_eq_some hget
  have hname : churn.name = "Churn?" := by
    have := List.find?_some hget
    exact of_decide_eq_true this
  have hchurn3 : churn ∈ preprocessDropCast df := by
    rw [preprocessDropCast]
    apply mem_dropCols_iff.mpr
    refine ⟨?_, by rw [hname]; decide⟩
    have h1 : churn ∈ dropCols ["Phone"] df :=
      mem_dropCols_iff.mpr ⟨hmem, by rw [hname]; decide⟩
    have h2 := mem_astype "Area Code" h1
    rwa [if_neg (by rw [hname]; decide)] at h2
  have htruelvl : "True." ∈ sortedLevels (churn.data.map cellStr) :=
    mem_sortedLevels.mpr htrue'
  -- the backtracking fact: every column of the dropped-and-cast frame comes
  -- from a column of `df` with the same name and data
  have htrace : ∀ x ∈ preprocessDropCast df,
      ∃ c0 ∈ df, x.name = c0.name ∧ x.data = c0.data
        ∧ x = (if c0.name = "Area Code" then { c0 with isObj := true } else c0) := by
    intro x hx
    rw [preprocessDropCast] at hx
    obtain ⟨hx2, _⟩ := mem_dropCols_iff.mp hx
    obtain ⟨c0, hc0, hxc0⟩ := of_mem_astype hx2
    obtain ⟨hc0df, _⟩ := mem_dropCols_iff.mp hc0
    exact ⟨c0, hc0df, by rw [hxc0]; exact astype_name c0 _,
      by rw [hxc0]; exact astype_data c0 _, hxc0⟩
  -- key: the Churn?_True. lookup in the dummied frame finds the churn
  -- indicator
  have key : getCol (get_dummies (preprocessDropCast df)) "Churn?_True."
      = some (dummyCol churn "True.") := by
    rw [getCol, get_dummies, List.find?_append]
    have hnonobj : ((preprocessDropCast df).filter (fun c => !c.isObj)).find?
        (fun c => c.name = "Churn?_True.") = none := by
      rw [List.find?_eq_none]
      intro x hx
      obtain ⟨hx3, hxobj⟩ := List.mem_filter.mp hx
      obtain ⟨c0, hc0df, hxname, _, hxc0⟩ := htrace x hx3
      by_cases hcn : c0.name = "Churn?"
      · have hc0churn : c0 = churn :=
          nodup_names_inj hnodup c0 hc0df churn hmem (by rw [hcn, hname])
        subst hc0churn
        have hxeq : x = c0 := by
          rw [hxc0, if_neg (by rw [hname]; decide)]
        rw [hxeq] at hxobj
        rw [hobj] at hxobj
        cases hxobj
      · have hfacts := clash_facts hclash hc0df hcn
        simp only [decide_eq_true_eq]
        rw [hxname]
        exact hfacts.1
    rw [hnonobj, Option.none_or]
    have hchurnFilter : churn ∈ (preprocessDropCast df).filter
        (fun c => c.isObj) :=
      List.mem_filter.mpr ⟨hchurn3, hobj⟩
    have hothers : ∀ b ∈ (preprocessDropCast df).filter (fun c => c.isObj),
        b ≠ churn → (dummyCols b).find? (fun c => c.name = "Churn?_True.")
          = none := by
      intro b hb hbne
      obtain ⟨hb3, hbobj⟩ := List.mem_filter.mp hb
      obtain ⟨c0, hc0df, hbname, hbdata, hbc0⟩ := htrace b hb3
      by_cases hcn : c0.name = "Churn?"
      · exfalso
        have hc0churn : c0 = churn :=
          nodup_names_inj hnodup c0 hc0df churn hmem (by rw [hcn, hname])
        subst hc0churn
        exact hbne (by rw [hbc0, if_neg (by rw [hname]; decide)])
      · have hfacts := clash_facts hclash hc0df hcn
        have hc0obj : c0.isObj = true ∨ c0.name = "Area Code" := by
          by_cases hac : c0.name = "Area Code"
          · exact Or.inr hac
          · left
            have : b = c0 := by rw [hbc0, if_neg hac]
            rw [← this]
            exact hbobj
        rw [List.find?_eq_none]
        intro y hy
        rw [dummyCols] at hy
        obtain ⟨v, hv, rfl⟩ := List.mem_map.mp hy
        simp only [decide_eq_true_eq]
        show ¬ (dummyCol b v).name = "Churn?_True."
        rw [show (dummyCol b v).name = b.name ++ "_" ++ v from rfl, hbname]
        have hv0 : v ∈ sortedLevels (c0.data.map cellStr) := by
          rwa [hbdata] at hv
        exact (hfacts.2.2 hc0obj v hv0).1
    rw [find?_flatMap_of_unique _ dummyCols hchurnFilter hothers]
    rw [dummyCols, List.find?_map]
    have hfun : ((fun c : Col => decide (c.name = "Churn?_True."))
          ∘ dummyCol churn)
        = fun v => decide (v = "True.") := by
      funext v
      show decide (churn.name ++ "_" ++ v = "Churn?_True.")
        = decide (v = "True.")
      rw [hname]
      by_cases hv : v = "True."
      · subst hv
        rw [decide_eq_true (by decide), decide_eq_true rfl]
      · rw [decide_eq_false hv, decide_eq_false]
        intro hcontra
        apply hv
        rw [show ("Churn?_True." : String) = "Churn?" ++ "_" ++ "True."
          by decide] at hcontra
        exact append_underscore_inj hcontra
    rw [hfun, find?_eq_self_of_mem htruelvl]
    rfl
  refine ⟨churn, rfl, hmem, hname, hobj, htrue', hfalse', ?_⟩
  rw [preprocess_model_data, churnRelabel, key]
  rfl

/-! ## Claim theorems -/

/-- Claim C2: when pipeline creation fails with a `ClientError` whose code
is `ValidationError` and whose message contains
`Pipeline names must be unique within`, the handler returns the result of
describing the existing pipeline (creation is treated as idempotent); any
other `ClientError` is re-raised unchanged, and a successful creation is
passed through. -/
theorem create_pipeline_duplicate_idempotent {α : Type}
    (describeResponse : α) (e : ClientError) :
    (e.Code = "ValidationError" → pyIn duplicateNameText e.Message = true →
      create_pipeline_handler (.error e) describeResponse = .ok describeResponse)
    ∧ (¬ (e.Code = "ValidationError" ∧ pyIn duplicateNameText e.Message = true) →
      create_pipeline_handler (.error e) describeResponse = .error e)
    ∧ (∀ r : α, create_pipeline_handler (.ok r) describeResponse = .ok r) := by
  refine ⟨fun hcode hmsg => ?_, fun hne => ?_, fun r => rfl⟩
  · simp [create_pipeline_handler, hcode, hmsg]
  · rw [create_pipeline_handler, if_neg]
    intro hb
    rw [Bool.and_eq_true, decide_eq_true_eq] at hb
    exact hne ⟨hb.1, hb.2⟩

/-- Witness for C2: the duplicate-name error at a concrete message is
absorbed into a describe result; an access-denied error is re-raised. -/
theorem create_pipeline_duplicate_idempotent_witness :
    create_pipeline_handler (.error sampleDuplicateError) "described" = .ok "described"
    ∧ create_pipeline_handler (.error sampleOtherError) "described"
        = .error sampleOtherError :=
  ⟨(create_pipeline_duplicate_idempotent "described" sampleDuplicateError).1
      rfl (by decide),
   (create_pipeline_duplicate_idempotent "described" sampleOtherError).2.1
      (by decide)⟩

/-- Claim C10: `packages[0]` after sorting succeeds exactly when the listed
model package group is non-empty; on an empty group the selection raises
`IndexError` (modelled by `none`). -/
theorem latest_package_requires_nonempty (ps : List ModelPackage) :
    (ps = [] → latest_model_package_arn ps = none)
    ∧ (ps ≠ [] → (latest_model_package_arn ps).isSome = true) := by
  constructor
  · rintro rfl; rfl
  · intro h
    have hne : sortedByCreationTimeDesc ps ≠ [] := by
      intro h0
      apply h
      have hlen := (List.perm_insertionSort byCreationTimeDesc ps).length_eq
      rw [sortedByCreationTimeDesc] at h0
      rw [h0] at hlen
      exact List.length_eq_zero.mp hlen.symm
    rw [latest_model_package_arn]
    cases hh : (sortedByCreationTimeDesc ps).head? with
    | none => exact absurd (List.head?_isSome.mpr hne) (by simp [hh])
    | some p => simp [hh]

/-- Witness for C10: the empty group yields `none`; a two-package group
yields a selection. -/
theorem latest_package_requires_nonempty_witness :
    latest_model_package_arn [] = none
    ∧ (latest_model_package_arn samplePackages).isSome = true :=
  ⟨(latest_package_requires_nonempty []).1 rfl,
   (latest_package_requires_nonempty samplePackages).2 (by decide)⟩

/-- Claim C6: the report written by `evaluate.py` has exactly two numeric
scalar leaves, at `binary_classification_metrics.accuracy.value` and
`binary_classification_metrics.auc.value`, holding the accuracy and the
AUC of the model's rounded predictions on the test set. -/
theorem evaluate_report_exactly_two_scalar_metrics
    (predict : List (List Cell) → List Rat) (testRows : List (List Cell)) :
    scalarPaths (evaluate_script predict testRows)
      = [["binary_classification_metrics", "accuracy", "value"],
         ["binary_classification_metrics", "auc", "value"]]
    ∧ json_path_eval (evaluate_script predict testRows)
        "binary_classification_metrics.accuracy.value"
      = some (.num (accuracy_score (evaluate_y_test testRows)
          ((predict (evaluate_X_test testRows)).map np_round)))
    ∧ json_path_eval (evaluate_script predict testRows)
        "binary_classification_metrics.auc.value"
      = some (.num (roc_auc_score (evaluate_y_test testRows)
          ((predict (evaluate_X_test testRows)).map np_round))) :=
  ⟨rfl, rfl, rfl⟩

/-- Claim C8: `np.split` at `int(0.7*n)` and `int(0.9*n)` partitions the
shuffled rows exactly: the three pieces have lengths `int(0.7*n)`,
`int(0.9*n) - int(0.7*n)` and `n - int(0.9*n)`, concatenate back to the
shuffled rows, and every input row occurs in exactly one piece (counting
multiplicity). -/
theorem np_split_exact_partition (rows shuffled : List (List Cell))
    (hperm : shuffled.Perm rows) :
    (np_split2 shuffled (int07 rows.length) (int09 rows.length)).1.length
      = int07 rows.length
    ∧ (np_split2 shuffled (int07 rows.length) (int09 rows.length)).2.1.length
      = int09 rows.length - int07 rows.length
    ∧ (np_split2 shuffled (int07 rows.length) (int09 rows.length)).2.2.length
      = rows.length - int09 rows.length
    ∧ (np_split2 shuffled (int07 rows.length) (int09 rows.length)).1
        ++ (np_split2 shuffled (int07 rows.length) (int09 rows.length)).2.1
        ++ (np_split2 shuffled (int07 rows.length) (int09 rows.length)).2.2
      = shuffled
    ∧ ∀ r, (np_split2 shuffled (int07 rows.length) (int09 rows.length)).1.countP
          (fun x => x = r)
        + (np_split2 shuffled (int07 rows.length) (int09 rows.length)).2.1.countP
          (fun x => x = r)
        + (np_split2 shuffled (int07 rows.length) (int09 rows.length)).2.2.countP
          (fun x => x = r)
      = rows.countP (fun x => x = r) := by
  have hlen : shuffled.length = rows.length := hperm.length_eq
  have h79 := int07_le_int09 rows.length
  have h9n := int09_le_self rows.length
  have h7n : int07 rows.length ≤ shuffled.length := by omega
  have h9n' : int09 rows.length ≤ shuffled.length := by omega
  have happ :
      (np_split2 shuffled (int07 rows.length) (int09 rows.length)).1
        ++ (np_split2 shuffled (int07 rows.length) (int09 rows.length)).2.1
        ++ (np_split2 shuffled (int07 rows.length) (int09 rows.length)).2.2
      = shuffled := by
    show shuffled.take (int07 rows.length)
        ++ (shuffled.take (int09 rows.length)).drop (int07 rows.length)
        ++ shuffled.drop (int09 rows.length) = shuffled
    have htt : shuffled.take (int07 rows.length)
        = (shuffled.take (int09 rows.length)).take (int07 rows.length) := by
      rw [List.take_take, Nat.min_eq_left h79]
    rw [htt, List.take_append_drop, List.take_append_drop]
  refine ⟨?_, ?_, ?_, happ, ?_⟩
  · show (shuffled.take (int07 rows.length)).length = _
    rw [List.length_take, Nat.min_eq_left h7n]
  · show ((shuffled.take (int09 rows.length)).drop (int07 rows.length)).length = _
    rw [List.length_drop, List.length_take, Nat.min_eq_left h9n']
  · show (shuffled.drop (int09 rows.length)).length = _
    rw [List.length_drop, hlen]
  · intro r
    have hc := hperm.countP_eq (fun x => x = r)
    rw [← happ] at hc
    rw [List.countP_append, List.countP_append] at hc
    omega

/-- Witness for C8: the five sample rows, reversed as the shuffle, split
into pieces of sizes 3, 1, 1 that concatenate back and preserve the count
of a chosen row. -/
theorem np_split_exact_partition_witness :
    (np_split2 sampleShuffled (int07 sampleRows.length)
        (int09 sampleRows.length)).1.length = int07 sampleRows.length
    ∧ (np_split2 sampleShuffled (int07 sampleRows.length)
          (int09 sampleRows.length)).1
        ++ (np_split2 sampleShuffled (int07 sampleRows.length)
          (int09 sampleRows.length)).2.1
        ++ (np_split2 sampleShuffled (int07 sampleRows.length)
          (int09 sampleRows.length)).2.2
      = sampleShuffled
    ∧ (np_split2 sampleShuffled (int07 sampleRows.length)
          (int09 sampleRows.length)).1.countP (fun x => x = [Cell.num 2])
        + (np_split2 sampleShuffled (int07 sampleRows.length)
          (int09 sampleRows.length)).2.1.countP (fun x => x = [Cell.num 2])
        + (np_split2 sampleShuffled (int07 sampleRows.length)
          (int09 sampleRows.length)).2.2.countP (fun x => x = [Cell.num 2])
      = sampleRows.countP (fun x => x = [Cell.num 2]) :=
  ⟨(np_split_exact_partition sampleRows sampleShuffled (by decide)).1,
   (np_split_exact_partition sampleRows sampleShuffled (by decide)).2.2.2.1,
   (np_split_exact_partition sampleRows sampleShuffled (by decide)).2.2.2.2
     [Cell.num 2]⟩

/-- Claim C1: the assembled pipeline is the ordered step list preprocess →
train → evaluate → condition; the condition step compares the value at json
path `binary_classification_metrics.accuracy.value` of the evaluation
report against 0.8, runs the model-registration step exactly when that
value is `≥ 0.8`, and its else branch contains no steps. -/
theorem pipeline_structure_and_conditional_registration :
    pipeline_steps = [step_process, step_train, step_eval, step_cond]
    ∧ step_cond = PipeStep.condition "CustomerChurnAccuracyCond"
        accuracy_json_path (8 / 10) [step_register] []
    ∧ pathSegments accuracy_json_path
        = ["binary_classification_metrics", "accuracy", "value"]
    ∧ (∀ report : J, executed_branch report step_cond = some [step_register]
        ↔ ∃ v : Rat, json_path_eval report accuracy_json_path = some (.num v)
            ∧ 8 / 10 ≤ v)
    ∧ (∀ report : J, ∀ v : Rat,
        json_path_eval report accuracy_json_path = some (.num v) → v < 8 / 10 →
        executed_branch report step_cond = some []) := by
  refine ⟨rfl, rfl, rfl, fun report => ?_, fun report v hv hlt => ?_⟩
  · constructor
    · intro h
      rw [show executed_branch report step_cond
          = (cond_ge_holds report accuracy_json_path (8 / 10)).map
            (fun b => if b then [step_register] else []) from rfl] at h
      rw [cond_ge_holds] at h
      cases hv : json_path_eval report accuracy_json_path with
      | none => rw [hv] at h; cases h
      | some j =>
        cases j with
        | num v =>
          rw [hv] at h
          by_cases hge : (8 : Rat) / 10 ≤ v
          · exact ⟨v, rfl, hge⟩
          · exfalso
            simp [hge] at h
        | str s => rw [hv] at h; cases h
        | obj fields => rw [hv] at h; cases h
    · rintro ⟨v, hv, hge⟩
      show (cond_ge_holds report accuracy_json_path (8 / 10)).map
          (fun b => if b then [step_register] else []) = some [step_register]
      rw [cond_ge_holds, hv]
      simp [hge]
  · show (cond_ge_holds report accuracy_json_path (8 / 10)).map
      (fun b => if b then [step_register] else []) = some []
    rw [cond_ge_holds, hv]
    simp [not_le.mpr hlt]

/-- Witness for C1: a report with accuracy 0.9 selects the registration
branch; a report with accuracy 0.5 selects the empty else branch. -/
theorem pipeline_structure_and_conditional_registration_witness :
    executed_branch (report_dict (9 / 10) (1 / 2)) step_cond
      = some [step_register]
    ∧ executed_branch (report_dict (1 / 2) (1 / 2)) step_cond = some [] :=
  ⟨(pipeline_structure_and_conditional_registration.2.2.2.1
      (report_dict (9 / 10) (1 / 2))).mpr ⟨9 / 10, rfl, by norm_num⟩,
   pipeline_structure_and_conditional_registration.2.2.2.2
      (report_dict (1 / 2) (1 / 2)) (1 / 2) rfl (by norm_num)⟩

/-- Claim C7: the approval operation sorts the listed packages by
`CreationTime` descending, takes the first — a package of maximal creation
time — and sets exactly that package's `ModelApprovalStatus` to
`Approved`, leaving every other package unchanged. -/
theorem approve_latest_selects_most_recent (ps : List ModelPackage)
    (hne : ps ≠ []) :
    ∃ latest ps2,
      latest ∈ ps
      ∧ (∀ q ∈ ps, q.CreationTime ≤ latest.CreationTime)
      ∧ latest_model_package_arn ps = some latest.ModelPackageArn
      ∧ approve_latest ps = some ps2
      ∧ ps2 = ps.map (fun p =>
          if p.ModelPackageArn = latest.ModelPackageArn
          then { p with ModelApprovalStatus := "Approved" } else p)
      ∧ (∀ q ∈ ps, q.ModelPackageArn ≠ latest.ModelPackageArn → q ∈ ps2) := by
  cases hs : sortedByCreationTimeDesc ps with
  | nil =>
    exfalso
    apply hne
    have hlen := (List.perm_insertionSort byCreationTimeDesc ps).length_eq
    rw [show List.insertionSort byCreationTimeDesc ps
        = sortedByCreationTimeDesc ps from rfl, hs] at hlen
    exact List.length_eq_zero.mp hlen.symm
  | cons latest rest =>
    have harn : latest_model_package_arn ps = some latest.ModelPackageArn := by
      rw [latest_model_package_arn, hs]
      rfl
    refine ⟨latest, update_model_package ps latest.ModelPackageArn "Approved",
      ?_, ?_, harn, ?_, rfl, ?_⟩
    · have : latest ∈ sortedByCreationTimeDesc ps := by
        rw [hs]; exact List.mem_cons_self _ _
      rw [sortedByCreationTimeDesc, List.mem_insertionSort] at this
      exact this
    · intro q hq
      have hq2 : q ∈ sortedByCreationTimeDesc ps := by
        rw [sortedByCreationTimeDesc, List.mem_insertionSort]
        exact hq
      rw [hs] at hq2
      rcases List.mem_cons.mp hq2 with rfl | hq3
      · exact le_refl _
      · have hsorted := List.sorted_insertionSort byCreationTimeDesc ps
        rw [show List.insertionSort byCreationTimeDesc ps
            = sortedByCreationTimeDesc ps from rfl, hs, List.sorted_cons]
            at hsorted
        exact hsorted.1 q hq3
    · rw [approve_latest, harn]
      rfl
    · intro q hq hqa
      rw [update_model_package]
      have : (if q.ModelPackageArn = latest.ModelPackageArn
          then { q with ModelApprovalStatus := "Approved" } else q) = q := by
        rw [if_neg hqa]
      exact this ▸ List.mem_map_of_mem _ hq

/-- Witness for C7: on the two sample packages, the arn-b package (creation
time 9) is selected and approved. -/
theorem approve_latest_selects_most_recent_witness :
    ∃ latest ps2,
      latest ∈ samplePackages
      ∧ (∀ q ∈ samplePackages, q.CreationTime ≤ latest.CreationTime)
      ∧ latest_model_package_arn samplePackages = some latest.ModelPackageArn
      ∧ approve_latest samplePackages = some ps2
      ∧ ps2 = samplePackages.map (fun p =>
          if p.ModelPackageArn = latest.ModelPackageArn
          then { p with ModelApprovalStatus := "Approved" } else p)
      ∧ (∀ q ∈ samplePackages,
          q.ModelPackageArn ≠ latest.ModelPackageArn → q ∈ ps2) :=
  approve_latest_selects_most_recent samplePackages (by decide)

/-- Counterexample for claim C3: with every describe call reporting status
`Failed` and `FailureReason` `ResourceLimitExceeded`, `wait_for_response`
prints the failure reason but raises `Exception('Creating Endpoint failed')`
— a fixed message that does not contain the reported failure reason. -/
theorem wait_for_response_exception_lacks_failure_reason :
    wait_for_response immediateFailResponses 30 1 0 [] []
      = some ([statusLine "Failed", failLine "ResourceLimitExceeded"], [],
          .error "Creating Endpoint failed")
    ∧ pyIn "ResourceLimitExceeded" "Creating Endpoint failed" = false := by
  exact ⟨rfl, rfl⟩

/-- Claim C3 (amended): when the wait loop observes `EndpointStatus =
'Failed'`, it raises an exception with the fixed message
`Creating Endpoint failed`; the platform's `FailureReason` is printed and
logged before raising, but is not carried in the exception. -/
theorem wait_for_response_failed_fixed_message
    (responses : Nat → EndpointResponse) (fuel k steps : Nat)
    (prints : List String) (sleeps : List Nat)
    (hbefore : ∀ m, m < steps → (responses (k + m)).EndpointStatus = "Creating")
    (hfail : (responses (k + steps)).EndpointStatus = "Failed")
    (hfuel : steps < fuel) :
    ∃ P S, wait_for_response responses 30 fuel k prints sleeps
        = some (P, S, .error "Creating Endpoint failed")
      ∧ failLine (responses (k + steps)).FailureReason ∈ P := by
  induction steps generalizing fuel k prints sleeps with
  | zero =>
    obtain ⟨f, rfl⟩ : ∃ f, fuel = f + 1 :=
      ⟨fuel - 1, by omega⟩
    rw [Nat.add_zero] at hfail ⊢
    have hstep : wait_for_response responses 30 (f + 1) k prints sleeps
        = some (prints ++ [statusLine "Failed"]
            ++ [failLine (responses k).FailureReason], sleeps,
            .error "Creating Endpoint failed") := by
      rw [wait_for_response]
      simp [hfail]
    exact ⟨prints ++ [statusLine "Failed"]
        ++ [failLine (responses k).FailureReason], sleeps, hstep, by simp⟩
  | succ s ih =>
    obtain ⟨f, rfl⟩ : ∃ f, fuel = f + 1 :=
      ⟨fuel - 1, by omega⟩
    have hk : (responses k).EndpointStatus = "Creating" :=
      Nat.add_zero k ▸ hbefore 0 (Nat.succ_pos s)
    have hstep : wait_for_response responses 30 (f + 1) k prints sleeps
        = wait_for_response responses 30 f (k + 1)
          (prints ++ [statusLine "Creating"]) (sleeps ++ [30]) := by
      rw [wait_for_response]
      simp [hk]
    rw [hstep]
    have hbefore2 : ∀ m, m < s → (responses (k + 1 + m)).EndpointStatus
        = "Creating" := by
      intro m hm
      have := hbefore (m + 1) (by omega)
      rwa [show k + (m + 1) = k + 1 + m by omega] at this
    have hfail2 : (responses (k + 1 + s)).EndpointStatus = "Failed" := by
      rwa [show k + 1 + s = k + (s + 1) by omega]
    obtain ⟨P, S, hres, hmem⟩ :=
      ih f (k + 1) (prints ++ [statusLine "Creating"]) (sleeps ++ [30])
        hbefore2 hfail2 (by omega)
    refine ⟨P, S, hres, ?_⟩
    rwa [show k + (s + 1) = k + 1 + s by omega]

/-- Witness for the amended C3: on the sample stream that reports `Creating`
then `Failed` with reason `CapacityError`, the raise carries the fixed
message and the failure-reason line is among the printed output. -/
theorem wait_for_response_failed_fixed_message_witness :
    ∃ P S, wait_for_response sampleFailResponses 30 3 0 [] []
        = some (P, S, .error "Creating Endpoint failed")
      ∧ failLine "CapacityError" ∈ P :=
  wait_for_response_failed_fixed_message sampleFailResponses 3 0 1 [] []
    (by decide) (by decide) (by decide)

/-- Claim C4: both status-wait loops poll at a fixed sleep interval (15
seconds for the pipeline execution, 30 seconds for endpoint creation as the
notebook calls `wait_for_response`) and exit only upon observing a status
other than the in-progress one (`Executing` / `Creating`) — the state the
loops treat as terminal; while every observation is the in-progress status
the loops never exit. -/
theorem poll_loops_fixed_interval_until_terminal :
    (∀ statuses : Nat → String, ∀ fuel k : Nat, ∀ acc res : List Nat,
      ∀ st : String,
      pipeline_poll_loop statuses fuel k acc = some (res, st) →
      (∀ x ∈ acc, x = 15) →
      (∀ x ∈ res, x = 15) ∧ st ≠ "Executing" ∧ ∃ m, statuses m = st)
    ∧ (∀ statuses : Nat → String, (∀ m, statuses m = "Executing") →
        ∀ fuel k acc, pipeline_poll_loop statuses fuel k acc = none)
    ∧ (∀ responses : Nat → EndpointResponse, ∀ fuel k : Nat,
        ∀ prints : List String, ∀ sleeps : List Nat, ∀ P : List String,
        ∀ S : List Nat, ∀ out : Except String Unit,
        wait_for_response responses 30 fuel k prints sleeps = some (P, S, out) →
        (∀ x ∈ sleeps, x = 30) →
        (∀ x ∈ S, x = 30) ∧ ∃ m, (responses m).EndpointStatus ≠ "Creating")
    ∧ (∀ responses : Nat → EndpointResponse,
        (∀ m, (responses m).EndpointStatus = "Creating") →
        ∀ fuel k prints sleeps,
        wait_for_response responses 30 fuel k prints sleeps = none) := by
  refine ⟨?_, ?_, ?_, ?_⟩
  · intro statuses fuel
    induction fuel with
    | zero => intro k acc res st h; cases h
    | succ f ih =>
      intro k acc res st h hacc
      by_cases hst : statuses k = "Executing"
      · rw [pipeline_poll_loop] at h
        simp only [hst, if_pos rfl] at h
        have hacc2 : ∀ x ∈ acc ++ [15], x = 15 := by
          intro x hx
          rcases List.mem_append.mp hx with hx1 | hx1
          · exact hacc x hx1
          · simpa using hx1
        exact ih (k + 1) (acc ++ [15]) res st h hacc2
      · rw [pipeline_poll_loop] at h
        rw [if_neg hst] at h
        simp only [Option.some.injEq, Prod.mk.injEq] at h
        obtain ⟨h1, h2⟩ := h
        exact ⟨h1 ▸ hacc, h2 ▸ hst, ⟨k, h2⟩⟩
  · intro statuses hall fuel
    induction fuel with
    | zero => intro k acc; rfl
    | succ f ih =>
      intro k acc
      rw [pipeline_poll_loop, if_pos (hall k)]
      exact ih (k + 1) (acc ++ [15])
  · intro responses fuel
    induction fuel with
    | zero => intro k prints sleeps P S out h; cases h
    | succ f ih =>
      intro k prints sleeps P S out h hsleeps
      rw [wait_for_response] at h
      by_cases hfl : (responses k).EndpointStatus = "Failed"
      · simp [hfl] at h
        obtain ⟨h1, h2, h3⟩ := h
        refine ⟨h2 ▸ hsleeps, ⟨k, ?_⟩⟩
        rw [hfl]
        decide
      · rw [if_neg hfl] at h
        have hsleeps2 : ∀ x ∈ sleeps ++ [30], x = 30 := by
          intro x hx
          rcases List.mem_append.mp hx with hx1 | hx1
          · exact hsleeps x hx1
          · simpa using hx1
        by_cases hcr : (responses k).EndpointStatus = "Creating"
        · rw [if_pos hcr] at h
          exact ih (k + 1) (prints ++ [statusLine (responses k).EndpointStatus])
            (sleeps ++ [30]) P S out h hsleeps2
        · refine ⟨?_, ⟨k, hcr⟩⟩
          by_cases hin : (responses k).EndpointStatus = "InService"
          · rw [if_neg hcr, if_pos hin] at h
            simp only [Option.some.injEq, Prod.mk.injEq] at h
            obtain ⟨h1, h2, h3⟩ := h
            exact h2 ▸ hsleeps2
          · rw [if_neg hcr, if_neg hin] at h
            simp only [Option.some.injEq, Prod.mk.injEq] at h
            obtain ⟨h1, h2, h3⟩ := h
            exact h2 ▸ hsleeps2
  · intro responses hall fuel
    induction fuel with
    | zero => intro k prints sleeps; rfl
    | succ f ih =>
      intro k prints sleeps
      rw [wait_for_response]
      rw [if_neg (by rw [hall k]; decide), if_pos (hall k)]
      exact ih (k + 1) (prints ++ [statusLine (responses k).EndpointStatus])
        (sleeps ++ [30])

/-- Witness for C4: the sample streams exit after two 15-second sleeps at
`Succeeded`, respectively after two 30-second sleeps at `InService`. -/
theorem poll_loops_fixed_interval_until_terminal_witness :
    ((∀ x ∈ ([15, 15] : List Nat), x = 15) ∧ "Succeeded" ≠ "Executing"
      ∧ ∃ m, sampleStatuses m = "Succeeded")
    ∧ ((∀ x ∈ ([30, 30] : List Nat), x = 30)
      ∧ ∃ m, (sampleCreatingResponses m).EndpointStatus ≠ "Creating") :=
  ⟨poll_loops_fixed_interval_until_terminal.1 sampleStatuses 5 0 [] [15, 15]
      "Succeeded" (by decide) (by decide),
   poll_loops_fixed_interval_until_terminal.2.2.1 sampleCreatingResponses 5 0
      [] [] [statusLine "Creating", statusLine "InService"] [30, 30] (.ok ())
      rfl (by decide)⟩

/-- Claim C5: on every churn-schema input the preprocessing recipe is fixed:
it drops exactly `Phone` and the four charge columns, keeps the other
non-categorical columns unchanged, one-hot encodes the categorical columns
via `get_dummies`, and splits the shuffled rows at `int(0.7*n)` and
`int(0.9*n)`. -/
theorem preprocess_fixed_recipe (df : Frame)
    (hnodup : (colNames df).Nodup)
    (hchurn : churn_input_ok df = true)
    (hclash : no_churn_clash df = true)
    (shuffle : List (List Cell) → List (List Cell)) :
    preprocessRecipeSpec df shuffle := by
  obtain ⟨churn, hget, hmem, hname, hobj, htrue', hfalse', hmd⟩ :=
    preprocess_structure df hnodup hchurn hclash
  refine ⟨dummyCol churn "True."
      :: dropCols ["Churn?_False.", "Churn?_True."]
           (get_dummies (preprocessDropCast df)), hmd, ?_, ?_, ?_, ?_⟩
  · -- (a) the five fixed names are gone
    intro nm hnm hcontra
    have hnm5 : nm = "Phone" ∨ nm = "Day Charge" ∨ nm = "Eve Charge"
        ∨ nm = "Night Charge" ∨ nm = "Intl Charge" := by
      simpa [droppedColumns] using hnm
    have hnmu : '_' ∉ nm.data := by
      rcases hnm5 with rfl | rfl | rfl | rfl | rfl <;> decide
    simp only [colNames, List.map_cons, List.mem_cons] at hcontra
    rcases hcontra with hc1 | hc1
    · exact hnmu (hc1 ▸ underscore_mem_dummy_name churn.name "True.")
    · obtain ⟨c, hcmem, hcname⟩ := List.mem_map.mp hc1
      obtain ⟨hcmd0, _⟩ := mem_dropCols_iff.mp hcmem
      rcases mem_get_dummies_shape hcmd0 with
        ⟨c0, hc0df, hceq, hcph, hcD4⟩ | ⟨s, v, hsu⟩
      · have hc0nm : c0.name = nm := by rw [← hceq, hcname]
        rcases hnm5 with rfl | rfl | rfl | rfl | rfl
        · exact hcph hc0nm
        · exact hcD4 (by rw [hc0nm]; decide)
        · exact hcD4 (by rw [hc0nm]; decide)
        · exact hcD4 (by rw [hc0nm]; decide)
        · exact hcD4 (by rw [hc0nm]; decide)
      · exact hnmu (by rw [← hcname, hsu]; exact underscore_mem_dummy_name s v)
  · -- (b) other non-categorical columns survive unchanged
    intro c hc hio hac hnd
    have hcn : c.name ≠ "Churn?" := by
      intro h
      have hcc : c = churn :=
        nodup_names_inj hnodup c hc churn hmem (by rw [h, hname])
      rw [hcc, hobj] at hio
      cases hio
    have hfacts := clash_facts hclash hc hcn
    have hph : c.name ≠ "Phone" := by
      intro h; exact hnd (by rw [h]; decide)
    have hD4 : c.name ∉ (["Day Charge", "Eve Charge", "Night Charge",
        "Intl Charge"] : List String) := by
      intro h
      apply hnd
      simp only [List.mem_cons, List.not_mem_nil, or_false] at h
      rcases h with h | h | h | h <;> (rw [h]; decide)
    have hc3 : c ∈ preprocessDropCast df := by
      have hnext := mem_dropcast hc hph hD4
      rwa [if_neg hac] at hnext
    have hcmd0 : c ∈ get_dummies (preprocessDropCast df) := by
      rw [get_dummies]
      exact List.mem_append.mpr
        (Or.inl (List.mem_filter.mpr ⟨hc3, by rw [hio]; rfl⟩))
    refine List.mem_cons_of_mem _ (mem_dropCols_iff.mpr ⟨hcmd0, ?_⟩)
    intro hmem2
    simp only [List.mem_cons, List.not_mem_nil, or_false] at hmem2
    rcases hmem2 with h | h
    · exact hfacts.2.1 h
    · exact hfacts.1 h
  · -- (c) categorical columns become their indicator columns
    intro c hc hobj2 hnd v hv hvFalse
    have hph : c.name ≠ "Phone" := by
      intro h; exact hnd (by rw [h]; decide)
    have hD4 : c.name ∉ (["Day Charge", "Eve Charge", "Night Charge",
        "Intl Charge"] : List String) := by
      intro h
      apply hnd
      simp only [List.mem_cons, List.not_mem_nil, or_false] at h
      rcases h with h | h | h | h <;> (rw [h]; decide)
    have hc3 : (if c.name = "Area Code" then { c with isObj := true } else c)
        ∈ preprocessDropCast df := mem_dropcast hc hph hD4
    have hc2obj : (if c.name = "Area Code"
        then { c with isObj := true } else c).isObj = true := by
      by_cases hac : c.name = "Area Code"
      · rw [if_pos hac]
      · rw [if_neg hac]
        rcases hobj2 with h | h
        · exact h
        · exact absurd h hac
    have hdm : dummyCol c v ∈ dummyCols
        (if c.name = "Area Code" then { c with isObj := true } else c) := by
      rw [dummyCols]
      have hveq : v ∈ sortedLevels ((if c.name = "Area Code"
          then { c with isObj := true } else c).data.map cellStr) := by
        rw [astype_data]
        exact hv
      have hnext := List.mem_map_of_mem
        (dummyCol (if c.name = "Area Code"
          then { c with isObj := true } else c)) hveq
      rwa [dummyCol_astype] at hnext
    have hdmm : dummyCol c v ∈ get_dummies (preprocessDropCast df) := by
      rw [get_dummies]
      refine List.mem_append.mpr (Or.inr ?_)
      exact List.mem_flatMap.mpr
        ⟨_, List.mem_filter.mpr ⟨hc3, hc2obj⟩, hdm⟩
    by_cases hT : c.name ++ "_" ++ v = "Churn?_True."
    · have hcn : c.name = "Churn?" := by
        by_contra hcn
        have hfacts := clash_facts hclash hc hcn
        exact (hfacts.2.2 hobj2 v hv).1 hT
      have hcc : c = churn :=
        nodup_names_inj hnodup c hc churn hmem (by rw [hcn, hname])
      have hvT : v = "True." := by
        rw [hcn] at hT
        rw [show ("Churn?_True." : String) = "Churn?" ++ "_" ++ "True."
          by decide] at hT
        exact append_underscore_inj hT
      rw [hcc, hvT]
      exact List.mem_cons_self _ _
    · refine List.mem_cons_of_mem _ (mem_dropCols_iff.mpr ⟨hdmm, ?_⟩)
      intro hmem2
      simp only [List.mem_cons, List.not_mem_nil, or_false] at hmem2
      rcases hmem2 with h | h
      · exact hvFalse h
      · exact hT h
  · -- (d) the script splits the shuffled rows at the two boundaries
    rw [preprocess_script, hmd]
    rfl

/-- Witness for C5: the recipe property holds of the sample churn frame with
the identity shuffle. -/
theorem preprocess_fixed_recipe_witness :
    (colNames sampleDf).Nodup ∧ churn_input_ok sampleDf = true
    ∧ no_churn_clash sampleDf = true ∧ preprocessRecipeSpec sampleDf id :=
  ⟨by decide, by decide, by decide,
   preprocess_fixed_recipe sampleDf (by decide) (by decide) (by decide) id⟩

/-- Claim C9: the first column of every header-less CSV written by
`preprocess.py` is the binary churn label `Churn?_True.` (with
`Churn?_False.` dropped); `evaluate.py` reads column 0 of `test.csv` as
`y_test` and drops it from the features, so the label column produced and
the label column consumed coincide. -/
theorem label_column_produced_equals_consumed (df : Frame)
    (hnodup : (colNames df).Nodup)
    (hchurn : churn_input_ok df = true)
    (hclash : no_churn_clash df = true)
    (shuffle : List (List Cell) → List (List Cell))
    (hshuffle : ∀ rows, (shuffle rows).Perm rows) :
    labelColumnSpec df shuffle := by
  obtain ⟨churn, hget, hmem, hname, hobj, htrue', hfalse', hmd⟩ :=
    preprocess_structure df hnodup hchurn hclash
  set md2 := dropCols ["Churn?_False.", "Churn?_True."]
    (get_dummies (preprocessDropCast df)) with hmd2def
  refine ⟨dummyCol churn "True." :: md2,
    churn, hget, hmd, ?_, ?_, rfl, rowsOf_head_map _ _,
    fun rows => ⟨rfl, rfl⟩, ?_⟩
  · -- the head column is named Churn?_True.
    simp only [colNames, List.map_cons, List.head?_cons]
    rw [show (dummyCol churn "True.").name = churn.name ++ "_" ++ "True."
      from rfl, hname]
    decide
  · -- Churn?_False. is gone
    intro hcontra
    simp only [colNames, List.map_cons, List.mem_cons] at hcontra
    rcases hcontra with h | h
    · rw [show (dummyCol churn "True.").name = churn.name ++ "_" ++ "True."
        from rfl, hname] at h
      exact absurd h (by decide)
    · obtain ⟨c, hcmem, hcname⟩ := List.mem_map.mp h
      rw [hmd2def] at hcmem
      obtain ⟨_, hnot⟩ := mem_dropCols_iff.mp hcmem
      exact hnot (by rw [hcname]; decide)
  · -- the written label cells are a permutation of the indicator column
    intro t v s hscript
    rw [preprocess_script, hmd] at hscript
    have heq : np_split2
        (shuffle (rowsOf (dummyCol churn "True." :: md2)))
        (int07 (rowsOf (dummyCol churn "True." :: md2)).length)
        (int09 (rowsOf (dummyCol churn "True." :: md2)).length)
        = (t, v, s) := Option.some.inj hscript
    have ht : t = (np_split2
        (shuffle (rowsOf (dummyCol churn "True." :: md2)))
        (int07 (rowsOf (dummyCol churn "True." :: md2)).length)
        (int09 (rowsOf (dummyCol churn "True." :: md2)).length)).1 := by
      rw [heq]
    have hv2 : v = (np_split2
        (shuffle (rowsOf (dummyCol churn "True." :: md2)))
        (int07 (rowsOf (dummyCol churn "True." :: md2)).length)
        (int09 (rowsOf (dummyCol churn "True." :: md2)).length)).2.1 := by
      rw [heq]
    have hs : s = (np_split2
        (shuffle (rowsOf (dummyCol churn "True." :: md2)))
        (int07 (rowsOf (dummyCol churn "True." :: md2)).length)
        (int09 (rowsOf (dummyCol churn "True." :: md2)).length)).2.2 := by
      rw [heq]
    have happ : t ++ v ++ s
        = shuffle (rowsOf (dummyCol churn "True." :: md2)) := by
      rw [ht, hv2, hs]
      exact np_split2_append_eq _ _ _ (int07_le_int09 _)
    rw [happ]
    have hperm := (hshuffle (rowsOf (dummyCol churn "True." :: md2))).map
      (fun r => r.headD (Cell.num 0))
    rwa [rowsOf_head_map] at hperm

/-- Witness for C9: the label-column property holds of the sample churn
frame with the identity shuffle. -/
theorem label_column_produced_equals_consumed_witness :
    (colNames sampleDf).Nodup ∧ churn_input_ok sampleDf = true
    ∧ no_churn_clash sampleDf = true ∧ labelColumnSpec sampleDf id :=
  ⟨by decide, by decide, by decide,
   label_column_produced_equals_consumed sampleDf (by decide) (by decide)
     (by decide) id (fun rows => List.Perm.refl rows)⟩

end ChurnPipeline
